import Mathlib

/-
Verification of the CX93001 voice-modem driver (src/cx93001/cx93001.py)
against its natural-language specification.

The program talks to a modem over a serial line.  We embed it shallowly:

  * a byte is a natural number, a byte string (Python bytes) is a list of
    naturals, written with their ASCII codes;
  * the serial transport is a script: the list of byte strings that the
    successive readline and read calls would yield; a readline on an
    exhausted script yields the empty byte string, the value pyserial
    returns on a read timeout;
  * the wall clock is a list of elapsed-time samples, one per loop
    iteration, taken at the moment the loop inspects the clock; times are
    rationals, standing in for the float seconds of time.time();
  * a fallible computation returns Option or Except.
-/

namespace CX93001

/-- Byte strings (Python bytes values) as lists of naturals. -/
abbrev Bytes := List Nat

/-- The byte string b"\x0d\x0a" (CR LF), the empty line the skip loop of
CX93001.__at discards. -/
def crlf : Bytes := [13, 10]

/-- The byte string b"OK\x0d\x0a", the bare OK line the skip loop of
CX93001.__at discards; O is 79, K is 75. -/
def okLine : Bytes := [79, 75, 13, 10]

/-- The default expected response of CX93001.__at, the two bytes of "OK". -/
def okResp : Bytes := [79, 75]

/-- The echo line the modem produces for a command: cmd + "\x0d\x0d\x0a",
compared on line 104 of the source. -/
def echoLine (cmd : Bytes) : Bytes := cmd ++ [13, 13, 10]

/-- The result line for an expected response: expected + "\x0d\x0a",
compared on line 107 of the source. -/
def resultLine (expected : Bytes) : Bytes := expected ++ [13, 10]

/-- Python substring membership pat in data for byte strings: true exactly
when pat occurs contiguously in data. -/
def hasSub (pat : Bytes) : Bytes → Bool
  | [] => decide (pat = [])
  | b :: rest => pat.isPrefixOf (b :: rest) || hasSub pat rest

/-- The skip loop of CX93001.__at (source lines 101-103): readline results
equal to b"\x0d\x0a" or b"OK\x0d\x0a" are discarded until a different line
(or, the script exhausted, the empty byte string) comes up.  We express it
on the remaining script: leading stray lines are dropped. -/
def dropStray : List Bytes → List Bytes
  | [] => []
  | l :: rest => if l = crlf ∨ l = okLine then dropStray rest else l :: rest

/-- CX93001.__at (source lines 93-112).  Writes cmd + "\x0d" (the write has
no effect on the returned value and is not modelled), then reads lines from
the script: stray b"\x0d\x0a" / b"OK\x0d\x0a" lines are skipped, the first
substantive line must equal the echo echoLine cmd, and on an echo match one
further line is read and compared with resultLine expected.  Returns the
boolean result of the Python method together with the unconsumed tail of
the script.  A readline on an exhausted script yields b"", which can match
neither the echo (echoLine is never empty) nor the result line. -/
def atCmd (cmd expected : Bytes) (input : List Bytes) : Bool × List Bytes :=
  match dropStray input with
  | [] => (false, [])
  | resp :: rest =>
    if resp = echoLine cmd then
      match rest with
      | [] => (decide (([] : Bytes) = resultLine expected), [])
      | resp2 :: rest2 => (decide (resp2 = resultLine expected), rest2)
    else (false, rest)

/-- CX93001.__detect_end (source lines 114-121): true when b"\x10s"
(16, 115), b"\x10b" (16, 98) or b"\x10\x03" (16, 3) occurs in data. -/
def detect_end (data : Bytes) : Bool :=
  hasSub [0x10, 0x73] data || hasSub [0x10, 0x62] data || hasSub [0x10, 0x03] data

/-- Python str.replace("\x0d\x0a", "") as performed on a decoded line in
CX93001.wait_call (source line 132): every occurrence of CR LF is removed,
scanning left to right.  We keep lines as byte strings; the decode step is
the identity on the byte values. -/
def stripCRLF : Bytes → Bytes
  | [] => []
  | [b] => [b]
  | b1 :: b2 :: rest =>
    if b1 = 13 ∧ b2 = 10 then stripCRLF rest
    else b1 :: stripCRLF (b2 :: rest)

/-- Python str.replace(pat, "") for a non-empty pattern: occurrences of pat
are removed left to right, without overlap.  Used for the removal of
"NMBR = " on source line 136. -/
def removeAll (pat : Bytes) : Bytes → Bytes
  | [] => []
  | b :: rest =>
    if h : pat ≠ [] ∧ pat.isPrefixOf (b :: rest) then
      removeAll pat (List.drop pat.length (b :: rest))
    else
      b :: removeAll pat rest
termination_by l => l.length
decreasing_by
  · have hlen : 0 < pat.length := List.length_pos.mpr h.1
    simp only [List.length_drop, List.length_cons]
    omega
  · simp only [List.length_cons]
    omega

/-- The ring token "RING" (source line 137). -/
def ringTok : Bytes := [82, 73, 78, 71]

/-- The caller-id token "NMBR" (source line 135). -/
def nmbrTok : Bytes := [78, 77, 66, 82]

/-- The pattern "NMBR = " removed from a caller-id line (source line 136). -/
def nmbrEq : Bytes := [78, 77, 66, 82, 32, 61, 32]

/-- CX93001.wait_call (source lines 123-141), modelled on the script of
lines the successive readline calls yield; the returned value is the
caller-number component of the returned pair (the first component is
datetime.now(), which carries no information about the control flow).
The ring counter rings starts at 0; on each line, after the CR LF strip,
an empty line is ignored, a line containing "NMBR" returns the line with
"NMBR = " removed, and a line containing "RING" increments the counter and
returns the empty number once the incremented counter has reached
maxRings.  maxRings is an integer, the counter a natural.  A script that
runs out before an exit condition fires means the Python loop is still
blocked reading; the model returns none. -/
def waitCall (maxRings : Int) : Nat → List Bytes → Option Bytes
  | _, [] => none
  | rings, line :: rest =>
    if stripCRLF line = [] then waitCall maxRings rings rest
    else if hasSub nmbrTok (stripCRLF line) then
      some (removeAll nmbrEq (stripCRLF line))
    else if hasSub ringTok (stripCRLF line) then
      if ((rings + 1 : Nat) : Int) ≥ maxRings then some []
      else waitCall maxRings (rings + 1) rest
    else waitCall maxRings rings rest

/-- The number of lines of a script that CX93001.wait_call counts as rings:
those whose stripped form contains "RING" (when no line contains "NMBR"). -/
def ringCount (lines : List Bytes) : Nat :=
  List.countP (fun l => hasSub ringTok (stripCRLF l)) lines

/-- The single distinguished failure CouldNotInitializeException raised by
CX93001.__init__ (source lines 19-20 and 56-72). -/
inductive InitError where
  | couldNotInitialize
deriving DecidableEq

/-- The six mandatory startup commands of CX93001.__init__, in order
(source lines 61-72): ATE1, AT, AT&F0, ATV1, ATE1, AT+VCID=1, each with
expected response "OK". -/
def initCmds : List Bytes :=
  [[65, 84, 69, 49],
   [65, 84],
   [65, 84, 38, 70, 48],
   [65, 84, 86, 49],
   [65, 84, 69, 49],
   [65, 84, 43, 86, 67, 73, 68, 61, 49]]

/-- Runs a list of AT commands in order against the script, each with
expected response "OK", stopping at the first command whose atCmd result is
false.  This is the control flow of the six guarded __at calls of
CX93001.__init__, each of which raises on a false result. -/
def runCmds : List Bytes → List Bytes → Bool × List Bytes
  | [], input => (true, input)
  | c :: cs, input =>
    match h : atCmd c okResp input with
    | (true, rest) => runCmds cs rest
    | (false, rest) => (false, rest)

/-- The transport script that answers each command of a list with its exact
echo line followed by an "OK" result line. -/
def scriptFor : List Bytes → List Bytes
  | [] => []
  | c :: cs => echoLine c :: resultLine okResp :: scriptFor cs

/-- CX93001.__init__ (source lines 31-72): if the serial port cannot be
opened (portOpens = false) the construction aborts with the distinguished
failure; otherwise the six startup commands run in order and the first
false result aborts with the same distinguished failure.  Only a fully
successful run returns a handle (modelled by Except.ok ()). -/
def initModem (portOpens : Bool) (input : List Bytes) : Except InitError Unit :=
  if portOpens = false then Except.error InitError.couldNotInitialize
  else if (runCmds initCmds input).1 then Except.ok ()
  else Except.error InitError.couldNotInitialize

/-- The outcome of CX93001.record_call that the claims speak about: the
chunks appended to the frame buffer (in order), the number of times
hang_up was invoked, the date whose strftime value names the output file,
and the unconsumed tail of the read script. -/
structure RecordResult where
  frames : List Bytes
  hangUps : Nat
  dateUsed : Nat
  leftover : List (Bytes × ℚ)
deriving DecidableEq

/-- The read loop of CX93001.record_call (source lines 257-264).  The
script pairs each read(1024) result with the elapsed time the iteration
observes at its time.time() - start check.  Per iteration: the chunk is
read; if __detect_end holds of it the loop breaks; otherwise, if the
elapsed time has reached the timeout the loop breaks; otherwise the chunk
is appended to frames.  On a break the loop yields the accumulated frames
and the unconsumed script; an exhausted script means the loop is still
reading, modelled as none. -/
def recordLoop (timeout : ℚ) : List (Bytes × ℚ) → Option (List Bytes × List (Bytes × ℚ))
  | [] => none
  | (chunk, t) :: rest =>
    if detect_end chunk then some ([], rest)
    else if timeout ≤ t then some ([], rest)
    else
      match recordLoop timeout rest with
      | none => none
      | some (fs, left) => some (chunk :: fs, left)

/-- CX93001.record_call (source lines 240-277), modelled from the read
loop on.  The mode-setting commands before the loop do not affect which
chunks are recorded and are not part of the claims settled here.  The
Python default parameter date=datetime.now() is evaluated once, when the
def statement of the class body executes; the resulting value is stored
with the function object and reused by every later call that omits date.
We therefore model the class definition as capturing defaultDate at
definition time; callTime is the wall-clock date at the moment of the
call, which the source never consults when naming the file; dateArg is
the explicit argument, if given.  After the loop, hang_up is invoked
exactly once (source line 265), and the file name is built from
(dateArg or defaultDate).strftime (source line 267). -/
def record_call (defaultDate callTime : Nat) (dateArg : Option Nat)
    (timeout : ℚ) (input : List (Bytes × ℚ)) : Option RecordResult :=
  (recordLoop timeout input).map
    (fun r => { frames := r.1, hangUps := 1, dateUsed := dateArg.getD defaultDate, leftover := r.2 })

/-- The wave-object source of CX93001.play_audio_obj: its declared frame
count and frame rate, and the successive non-empty readframes(1024)
results; once these run out, readframes yields the empty byte string. -/
structure WavObj where
  nframes : Nat
  framerate : Nat
  chunks : List Bytes

/-- The guard of the while loop on source line 170: data != "" compares
the bytes value data against the str literal.  In Python 3 a bytes value
never equals a str, so the comparison is true for every data, including
the empty bytes value b"" that readframes yields on exhaustion. -/
def bytesNeStr (_data : Bytes) : Bool := true

/-- One readframes(1024) call on the modelled source: the next chunk, or
the empty byte string once the source is exhausted. -/
def nextFrames : List Bytes → Bytes × List Bytes
  | [] => ([], [])
  | c :: cs => (c, cs)

/-- The write loop of CX93001.play_audio_obj (source lines 169-175).  The
clock script times gives the elapsed time each iteration observes at its
time.time() - start check.  Per iteration: the guard data != "" is
checked (bytesNeStr); the current data is written, the next chunk is read,
and if the elapsed time has reached the timeout the loop breaks.  Yields
the list of written chunks; an exhausted clock script with the loop still
running is modelled as none. -/
def playLoop (timeout : ℚ) : Bytes → List Bytes → List ℚ → Option (List Bytes)
  | data, _, [] => if bytesNeStr data then none else some []
  | data, src, t :: ts =>
    if bytesNeStr data then
      match nextFrames src with
      | (d2, src2) =>
        if timeout ≤ t then some [data]
        else
          match playLoop timeout d2 src2 ts with
          | none => none
          | some ws => some (data :: ws)
    else some []

/-- CX93001.play_audio_obj (source lines 156-175): the effective timeout
is nframes / framerate when the timeout argument is 0 (source lines
163-164, float division modelled as rational division), the first chunk
is read, and the write loop runs. -/
def playAudioObj (w : WavObj) (timeout : ℚ) (times : List ℚ) : Option (List Bytes) :=
  let eff := if timeout = 0 then (w.nframes : ℚ) / (w.framerate : ℚ) else timeout
  match nextFrames w.chunks with
  | (d0, src) => playLoop eff d0 src times

/-! Helper lemmas about the embedded definitions. -/

theorem echoLine_ne_nil (c : Bytes) : echoLine c ≠ [] := by
  simp [echoLine]

theorem resultLine_ne_nil (e : Bytes) : resultLine e ≠ [] := by
  simp [resultLine]

theorem echoLine_ne_crlf (c : Bytes) : echoLine c ≠ crlf := by
  intro h
  have hl := congrArg List.length h
  simp [echoLine, crlf] at hl

theorem echoLine_ne_okLine (c : Bytes) : echoLine c ≠ okLine := by
  intro h
  rcases c with _ | ⟨x, _ | ⟨y, c⟩⟩
  · simp [echoLine, okLine] at h
  · simp [echoLine, okLine] at h
  · have hl := congrArg List.length h
    simp [echoLine, okLine] at hl

theorem dropStray_nonstray (l : Bytes) (rest : List Bytes)
    (h1 : l ≠ crlf) (h2 : l ≠ okLine) :
    dropStray (l :: rest) = l :: rest := by
  simp [dropStray, h1, h2]

theorem dropStray_stray (l : Bytes) (rest : List Bytes)
    (h : l = crlf ∨ l = okLine) :
    dropStray (l :: rest) = dropStray rest := by
  simp [dropStray, h]

theorem dropStray_strays_append (strays : List Bytes) (rest : List Bytes)
    (h : ∀ s ∈ strays, s = crlf ∨ s = okLine) :
    dropStray (strays ++ rest) = dropStray rest := by
  induction strays with
  | nil => rfl
  | cons s ss ih =>
    rw [List.cons_append, dropStray_stray s _ (h s (by simp))]
    exact ih (fun x hx => h x (by simp [hx]))

theorem atCmd_ok (c e : Bytes) (rest : List Bytes) :
    atCmd c e (echoLine c :: resultLine e :: rest) = (true, rest) := by
  unfold atCmd
  rw [dropStray_nonstray _ _ (echoLine_ne_crlf c) (echoLine_ne_okLine c)]
  simp

theorem atCmd_badFirst (c e : Bytes) (l : Bytes) (rest : List Bytes)
    (h1 : l ≠ crlf) (h2 : l ≠ okLine) (h3 : l ≠ echoLine c) :
    atCmd c e (l :: rest) = (false, rest) := by
  unfold atCmd
  rw [dropStray_nonstray _ _ h1 h2]
  simp [h3]

theorem atCmd_badResult (c e : Bytes) (r : Bytes) (rest : List Bytes)
    (h : r ≠ resultLine e) :
    atCmd c e (echoLine c :: r :: rest) = (false, rest) := by
  unfold atCmd
  rw [dropStray_nonstray _ _ (echoLine_ne_crlf c) (echoLine_ne_okLine c)]
  simp [h]

theorem hasSub_iff (pat : Bytes) (l : Bytes) :
    hasSub pat l = true ↔ ∃ p s, l = p ++ pat ++ s := by
  induction l with
  | nil =>
    constructor
    · intro h
      have hp : pat = [] := by simpa [hasSub] using h
      exact ⟨[], [], by simp [hp]⟩
    · rintro ⟨p, s, h⟩
      rcases List.append_eq_nil.mp h.symm with ⟨hp, h2⟩
      rcases List.append_eq_nil.mp hp with ⟨hpnil, hpat⟩
      simp [hasSub, hpat]
  | cons b rest ih =>
    rw [hasSub, Bool.or_eq_true, List.isPrefixOf_iff_prefix, ih]
    constructor
    · rintro (⟨t, ht⟩ | ⟨p, s, h⟩)
      · exact ⟨[], t, by simpa using ht.symm⟩
      · exact ⟨b :: p, s, by simp [h]⟩
    · rintro ⟨p, s, h⟩
      rcases p with _ | ⟨p0, p2⟩
      · exact Or.inl ⟨s, by simpa using h.symm⟩
      · rw [List.cons_append, List.cons_append] at h
        injection h with h1 h2
        exact Or.inr ⟨p2, s, by simpa using h2⟩

theorem runCmds_script (cmds : List Bytes) (rest : List Bytes) :
    runCmds cmds (scriptFor cmds ++ rest) = (true, rest) := by
  induction cmds generalizing rest with
  | nil => rfl
  | cons c cs ih =>
    rw [scriptFor, List.cons_append, List.cons_append]
    unfold runCmds
    rw [atCmd_ok c okResp (scriptFor cs ++ rest)]
    exact ih rest

theorem runCmds_bad (pre : List Bytes) (c : Bytes) (post : List Bytes)
    (bad : Bytes) (rest : List Bytes)
    (h1 : bad ≠ crlf) (h2 : bad ≠ okLine) (h3 : bad ≠ echoLine c) :
    runCmds (pre ++ c :: post) (scriptFor pre ++ bad :: rest) = (false, rest) := by
  induction pre generalizing rest with
  | nil =>
    rw [scriptFor, List.nil_append, List.nil_append]
    unfold runCmds
    rw [atCmd_badFirst c okResp bad rest h1 h2 h3]
  | cons c0 cs ih =>
    rw [scriptFor, List.cons_append, List.cons_append, List.cons_append]
    unfold runCmds
    rw [atCmd_ok c0 okResp (scriptFor cs ++ bad :: rest)]
    exact ih rest

theorem runCmds_badResult (pre : List Bytes) (c : Bytes) (post : List Bytes)
    (badRes : Bytes) (rest : List Bytes)
    (h : badRes ≠ resultLine okResp) :
    runCmds (pre ++ c :: post)
      (scriptFor pre ++ echoLine c :: badRes :: rest) = (false, rest) := by
  induction pre generalizing rest with
  | nil =>
    rw [scriptFor, List.nil_append, List.nil_append]
    unfold runCmds
    rw [atCmd_badResult c okResp badRes rest h]
  | cons c0 cs ih =>
    rw [scriptFor, List.cons_append, List.cons_append, List.cons_append]
    unfold runCmds
    rw [atCmd_ok c0 okResp (scriptFor cs ++ echoLine c :: badRes :: rest)]
    exact ih rest

theorem hasSub_nil_ring : hasSub ringTok ([] : Bytes) = false := rfl

theorem ringCount_cons (l : Bytes) (ls : List Bytes) :
    ringCount (l :: ls) =
      (if hasSub ringTok (stripCRLF l) then 1 else 0) + ringCount ls := by
  by_cases h : hasSub ringTok (stripCRLF l) = true
  · simp [ringCount, List.countP_cons, h, Nat.add_comm]
  · simp [ringCount, List.countP_cons, h]

theorem waitCall_none_below (k : Int) :
    ∀ (lines : List Bytes) (rings : Nat),
    (∀ l ∈ lines, hasSub nmbrTok (stripCRLF l) = false) →
    (rings : Int) + (ringCount lines : Int) < k →
    waitCall k rings lines = none := by
  intro lines
  induction lines with
  | nil => intro rings hN hlt; rfl
  | cons l ls ih =>
    intro rings hN hlt
    have hNl : hasSub nmbrTok (stripCRLF l) = false := hN l (by simp)
    have hNls : ∀ x ∈ ls, hasSub nmbrTok (stripCRLF x) = false :=
      fun x hx => hN x (by simp [hx])
    rw [ringCount_cons] at hlt
    rw [waitCall]
    by_cases hd : stripCRLF l = []
    · rw [if_pos hd]
      refine ih rings hNls ?_
      rw [hd, hasSub_nil_ring, if_neg Bool.false_ne_true] at hlt
      push_cast at hlt ⊢
      omega
    · rw [if_neg hd, if_neg (by simp [hNl])]
      by_cases hr : hasSub ringTok (stripCRLF l) = true
      · rw [if_pos hr]
        rw [hr, if_pos rfl] at hlt
        rw [if_neg (show ¬ ((rings + 1 : Nat) : Int) ≥ k by
          push_cast at hlt ⊢; omega)]
        refine ih (rings + 1) hNls ?_
        push_cast at hlt ⊢
        omega
      · rw [if_neg hr]
        refine ih rings hNls ?_
        rw [if_neg hr] at hlt
        push_cast at hlt ⊢
        omega

theorem waitCall_none_noTokens (k : Int) :
    ∀ (lines : List Bytes) (rings : Nat),
    (∀ l ∈ lines, hasSub nmbrTok (stripCRLF l) = false ∧
                  hasSub ringTok (stripCRLF l) = false) →
    waitCall k rings lines = none := by
  intro lines
  induction lines with
  | nil => intro rings hN; rfl
  | cons l ls ih =>
    intro rings hN
    obtain ⟨hNl, hRl⟩ := hN l (by simp)
    have hNls : ∀ x ∈ ls, hasSub nmbrTok (stripCRLF x) = false ∧
        hasSub ringTok (stripCRLF x) = false :=
      fun x hx => hN x (by simp [hx])
    rw [waitCall]
    by_cases hd : stripCRLF l = []
    · rw [if_pos hd]
      exact ih rings hNls
    · rw [if_neg hd, if_neg (by simp [hNl]), if_neg (by simp [hRl])]
      exact ih rings hNls

theorem waitCall_trigger (k : Int) :
    ∀ (pre : List Bytes) (rings : Nat) (r : Bytes) (rest : List Bytes),
    (∀ l ∈ pre, hasSub nmbrTok (stripCRLF l) = false) →
    hasSub nmbrTok (stripCRLF r) = false →
    hasSub ringTok (stripCRLF r) = true →
    (rings : Int) + (ringCount pre : Int) + 1 ≥ k →
    waitCall k rings (pre ++ r :: rest) = some [] := by
  intro pre
  induction pre with
  | nil =>
    intro rings r rest hN hNr hRr hge
    have hd : stripCRLF r ≠ [] := by
      intro hnil
      rw [hnil, hasSub_nil_ring] at hRr
      exact Bool.false_ne_true hRr
    rw [List.nil_append, waitCall, if_neg hd, if_neg (by simp [hNr]),
      if_pos hRr, if_pos (show ((rings + 1 : Nat) : Int) ≥ k by
        simp [ringCount] at hge; push_cast; omega)]
  | cons l pre ih =>
    intro rings r rest hN hNr hRr hge
    have hNl : hasSub nmbrTok (stripCRLF l) = false := hN l (by simp)
    have hNpre : ∀ x ∈ pre, hasSub nmbrTok (stripCRLF x) = false :=
      fun x hx => hN x (by simp [hx])
    rw [ringCount_cons] at hge
    rw [List.cons_append, waitCall]
    by_cases hd : stripCRLF l = []
    · rw [if_pos hd]
      refine ih rings r rest hNpre hNr hRr ?_
      rw [hd, hasSub_nil_ring, if_neg Bool.false_ne_true] at hge
      push_cast at hge ⊢
      omega
    · rw [if_neg hd, if_neg (by simp [hNl])]
      by_cases hr : hasSub ringTok (stripCRLF l) = true
      · rw [if_pos hr]
        rw [hr, if_pos rfl] at hge
        by_cases htrig : ((rings + 1 : Nat) : Int) ≥ k
        · rw [if_pos htrig]
        · rw [if_neg htrig]
          refine ih (rings + 1) r rest hNpre hNr hRr ?_
          push_cast at hge ⊢
          omega
      · rw [if_neg hr]
        refine ih rings r rest hNpre hNr hRr ?_
        rw [if_neg hr] at hge
        push_cast at hge ⊢
        omega

theorem recordLoop_exit (timeout : ℚ) :
    ∀ (pre : List (Bytes × ℚ)) (c : Bytes) (t : ℚ) (rest : List (Bytes × ℚ)),
    (∀ p ∈ pre, detect_end p.1 = false ∧ p.2 < timeout) →
    (detect_end c = true ∨ timeout ≤ t) →
    recordLoop timeout (pre ++ (c, t) :: rest) = some (pre.map Prod.fst, rest) := by
  intro pre
  induction pre with
  | nil =>
    intro c t rest hpre hexit
    by_cases hd : detect_end c = true
    · rw [List.nil_append, recordLoop, if_pos hd]
      rfl
    · rw [List.nil_append, recordLoop, if_neg hd,
        if_pos (hexit.resolve_left hd)]
      rfl
  | cons p pre ih =>
    intro c t rest hpre hexit
    rcases p with ⟨chunk, tt⟩
    obtain ⟨hdet, htt⟩ := hpre (chunk, tt) (by simp)
    have hpre2 : ∀ q ∈ pre, detect_end q.1 = false ∧ q.2 < timeout :=
      fun q hq => hpre q (by simp [hq])
    rw [List.cons_append, recordLoop, if_neg (by simp [hdet]),
      if_neg (not_le.mpr htt), ih c t rest hpre2 hexit]
    rfl

theorem recordLoop_some_inv (timeout : ℚ) :
    ∀ (input : List (Bytes × ℚ)) (fs : List Bytes) (left : List (Bytes × ℚ)),
    recordLoop timeout input = some (fs, left) →
    ∃ pre ex rest, input = pre ++ ex :: rest ∧ fs = pre.map Prod.fst ∧
      (∀ p ∈ pre, detect_end p.1 = false ∧ p.2 < timeout) ∧
      (detect_end ex.1 = true ∨ timeout ≤ ex.2) ∧ left = rest := by
  intro input
  induction input with
  | nil => intro fs left h; simp [recordLoop] at h
  | cons pt rest ih =>
    rcases pt with ⟨chunk, t⟩
    intro fs left h
    by_cases hd : detect_end chunk = true
    · rw [recordLoop, if_pos hd] at h
      injection h with hh
      injection hh with h1 h2
      exact ⟨[], (chunk, t), rest, by simp, by simp [← h1], by simp,
        Or.inl hd, by simp [← h2]⟩
    · by_cases ht : timeout ≤ t
      · rw [recordLoop, if_neg hd, if_pos ht] at h
        injection h with hh
        injection hh with h1 h2
        exact ⟨[], (chunk, t), rest, by simp, by simp [← h1], by simp,
          Or.inr ht, by simp [← h2]⟩
      · rw [recordLoop, if_neg hd, if_neg ht] at h
        rcases hrec : recordLoop timeout rest with _ | ⟨fs0, left0⟩
        · rw [hrec] at h; exact absurd h (by simp)
        · rw [hrec] at h
          injection h with hh
          injection hh with h1 h2
          obtain ⟨pre, ex, rest2, hsplit, hfs, hpre, hexit, hleft⟩ :=
            ih fs0 left0 hrec
          refine ⟨(chunk, t) :: pre, ex, rest2, by simp [hsplit], ?_, ?_,
            hexit, by simp [← h2, hleft]⟩
          · simp [← h1, hfs]
          · intro q hq
            rcases List.mem_cons.mp hq with hq1 | hq1
            · subst hq1
              exact ⟨by simpa using hd, lt_of_not_le ht⟩
            · exact hpre q hq1

theorem atCmd_nil (c e : Bytes) : atCmd c e [] = (false, []) := rfl

theorem atCmd_stray_cons (c e l : Bytes) (rest : List Bytes)
    (h : l = crlf ∨ l = okLine) :
    atCmd c e (l :: rest) = atCmd c e rest := by
  unfold atCmd
  rw [dropStray_stray l rest h]

theorem atCmd_strays_append (c e : Bytes) (strays input : List Bytes)
    (h : ∀ s ∈ strays, s = crlf ∨ s = okLine) :
    atCmd c e (strays ++ input) = atCmd c e input := by
  unfold atCmd
  rw [dropStray_strays_append strays input h]

theorem atCmd_echo_alone (c e : Bytes) :
    atCmd c e [echoLine c] = (false, []) := by
  unfold atCmd
  rw [dropStray_nonstray _ _ (echoLine_ne_crlf c) (echoLine_ne_okLine c)]
  simp [resultLine]

/-! The claims. -/

/-- C1: for every command c and expected response e, the command primitive
__at returns true when the transport yields exactly the echo line
c + CR CR LF followed by the result line e + CR LF, consuming exactly those
two lines; when the transport yields exactly two lines and either deviates,
the result is false; and when the first substantive line is not the echo,
the call returns false at once with the remaining input, in particular the
result line, unconsumed. -/
theorem at_send_protocol (cmd expected : Bytes) :
    (∀ rest, atCmd cmd expected (echoLine cmd :: resultLine expected :: rest)
        = (true, rest)) ∧
    (∀ l1 l2, ¬(l1 = echoLine cmd ∧ l2 = resultLine expected) →
        (atCmd cmd expected [l1, l2]).1 = false) ∧
    (∀ l1 rest, l1 ≠ crlf → l1 ≠ okLine → l1 ≠ echoLine cmd →
        atCmd cmd expected (l1 :: rest) = (false, rest)) := by
  refine ⟨fun rest => atCmd_ok cmd expected rest, ?_,
    fun l1 rest h1 h2 h3 => atCmd_badFirst cmd expected l1 rest h1 h2 h3⟩
  intro l1 l2 hdev
  by_cases hs1 : l1 = crlf ∨ l1 = okLine
  · rw [atCmd_stray_cons cmd expected l1 [l2] hs1]
    by_cases hs2 : l2 = crlf ∨ l2 = okLine
    · rw [atCmd_stray_cons cmd expected l2 [] hs2, atCmd_nil]
    · by_cases he : l2 = echoLine cmd
      · rw [he, atCmd_echo_alone]
      · rw [atCmd_badFirst cmd expected l2 []
          (fun h => hs2 (Or.inl h)) (fun h => hs2 (Or.inr h)) he]
  · by_cases he : l1 = echoLine cmd
    · have hr : l2 ≠ resultLine expected := fun h2 => hdev ⟨he, h2⟩
      rw [he, atCmd_badResult cmd expected l2 [] hr]
    · rw [atCmd_badFirst cmd expected l1 [l2]
        (fun h => hs1 (Or.inl h)) (fun h => hs1 (Or.inr h)) he]

theorem at_send_protocol_witness :
    atCmd [65, 84] okResp [echoLine [65, 84], resultLine okResp] = (true, []) ∧
    (atCmd [65, 84] okResp [[88], resultLine okResp]).1 = false ∧
    atCmd [65, 84] okResp ([88] :: [[99]]) = (false, [[99]]) :=
  ⟨(at_send_protocol [65, 84] okResp).1 [],
   (at_send_protocol [65, 84] okResp).2.1 [88] (resultLine okResp) (by decide),
   (at_send_protocol [65, 84] okResp).2.2 [88] [[99]]
     (by decide) (by decide) (by decide)⟩

/-- C7: before the echo is matched, __at skips any number of leading lines
that are exactly CR LF or OK CR LF and still succeeds on the scripted
echo and result; after the echo has been matched, such a line is not
skipped: it is compared against the expected result line (and fails the
comparison whenever it differs from it), with the following input left
unconsumed. -/
theorem at_skips_strays_only_before_echo (cmd expected : Bytes) :
    (∀ strays rest, (∀ s ∈ strays, s = crlf ∨ s = okLine) →
        atCmd cmd expected
          (strays ++ echoLine cmd :: resultLine expected :: rest)
          = (true, rest)) ∧
    (∀ s rest, (s = crlf ∨ s = okLine) → s ≠ resultLine expected →
        atCmd cmd expected (echoLine cmd :: s :: rest) = (false, rest)) := by
  constructor
  · intro strays rest hs
    rw [atCmd_strays_append cmd expected strays _ hs]
    exact atCmd_ok cmd expected rest
  · intro s rest hs hne
    exact atCmd_badResult cmd expected s rest hne

theorem at_skips_strays_only_before_echo_witness :
    atCmd [65, 84] okResp
      ([crlf, okLine] ++ echoLine [65, 84] :: resultLine okResp :: [])
      = (true, []) ∧
    atCmd [65, 84] okResp (echoLine [65, 84] :: crlf :: [[99]])
      = (false, [[99]]) :=
  ⟨(at_skips_strays_only_before_echo [65, 84] okResp).1 [crlf, okLine] []
     (by decide),
   (at_skips_strays_only_before_echo [65, 84] okResp).2 crlf [[99]]
     (Or.inl rfl) (by decide)⟩

/-- C4: the end-of-call detector returns true exactly when the buffer
contains 0x10 0x73, 0x10 0x62 or 0x10 0x03 as a contiguous two-byte run
anywhere, including as the final two bytes, and false otherwise; in
particular a buffer whose only DLE byte is a lone trailing 0x10 admits no
such decomposition and yields false. -/
theorem detect_end_markers (data : Bytes) :
    detect_end data = true ↔
      ∃ x p s, (x = 0x73 ∨ x = 0x62 ∨ x = 0x03) ∧
        data = p ++ 0x10 :: x :: s := by
  unfold detect_end
  rw [Bool.or_eq_true, Bool.or_eq_true, hasSub_iff, hasSub_iff, hasSub_iff]
  constructor
  · rintro ((⟨p, s, h⟩ | ⟨p, s, h⟩) | ⟨p, s, h⟩)
    · exact ⟨0x73, p, s, Or.inl rfl, by simpa using h⟩
    · exact ⟨0x62, p, s, Or.inr (Or.inl rfl), by simpa using h⟩
    · exact ⟨0x03, p, s, Or.inr (Or.inr rfl), by simpa using h⟩
  · rintro ⟨x, p, s, (rfl | rfl | rfl), h⟩
    · exact Or.inl (Or.inl ⟨p, s, by simpa using h⟩)
    · exact Or.inl (Or.inr ⟨p, s, by simpa using h⟩)
    · exact Or.inr ⟨p, s, by simpa using h⟩

theorem detect_end_markers_witness :
    detect_end [0, 0x10, 0x03] = true :=
  (detect_end_markers [0, 0x10, 0x03]).mpr
    ⟨0x03, [0], [], Or.inr (Or.inr rfl), rfl⟩

/-- C5: on a line script containing no NMBR line, wait_call never returns
the empty-number record while fewer than maxRings ring lines have been
counted, and it returns the empty-number record at the very line on which
the ring counter reaches maxRings, whatever input follows that line. -/
theorem wait_call_empty_number_exact (k : Int) :
    (∀ lines, (∀ l ∈ lines, hasSub nmbrTok (stripCRLF l) = false) →
        (ringCount lines : Int) < k → waitCall k 0 lines = none) ∧
    (∀ pre r rest, (∀ l ∈ pre, hasSub nmbrTok (stripCRLF l) = false) →
        hasSub nmbrTok (stripCRLF r) = false →
        hasSub ringTok (stripCRLF r) = true →
        (ringCount pre : Int) + 1 = k →
        waitCall k 0 (pre ++ r :: rest) = some []) := by
  constructor
  · intro lines hN hlt
    exact waitCall_none_below k lines 0 hN (by push_cast at hlt ⊢; omega)
  · intro pre r rest hN hNr hRr heq
    exact waitCall_trigger k pre 0 r rest hN hNr hRr
      (by push_cast at heq ⊢; omega)

theorem wait_call_empty_number_exact_witness :
    waitCall 2 0 [[82, 73, 78, 71]] = none ∧
    waitCall 1 0 [[82, 73, 78, 71]] = some [] :=
  ⟨(wait_call_empty_number_exact 2).1 [[82, 73, 78, 71]]
     (by decide) (by decide),
   (wait_call_empty_number_exact 1).2 [] [82, 73, 78, 71] []
     (by decide) (by decide) (by decide) (by decide)⟩

/-- C9: for maxRings ≤ 0 and no NMBR line, wait_call does not return
immediately: on a script with no ring line it never returns the
empty-number record, and it returns it exactly upon processing the first
line containing the ring token, because the counter is compared with the
threshold only after it has been incremented. -/
theorem wait_call_nonpositive_threshold (k : Int) (hk : k ≤ 0) :
    (∀ lines, (∀ l ∈ lines, hasSub nmbrTok (stripCRLF l) = false ∧
        hasSub ringTok (stripCRLF l) = false) →
        waitCall k 0 lines = none) ∧
    (∀ pre r rest, (∀ l ∈ pre, hasSub nmbrTok (stripCRLF l) = false ∧
        hasSub ringTok (stripCRLF l) = false) →
        hasSub nmbrTok (stripCRLF r) = false →
        hasSub ringTok (stripCRLF r) = true →
        waitCall k 0 (pre ++ r :: rest) = some []) := by
  constructor
  · intro lines hN
    exact waitCall_none_noTokens k lines 0 hN
  · intro pre r rest hpre hNr hRr
    refine waitCall_trigger k pre 0 r rest (fun l hl => (hpre l hl).1)
      hNr hRr ?_
    have hrc : ringCount pre = 0 := by
      rw [ringCount, List.countP_eq_zero]
      exact fun l hl => by simp [(hpre l hl).2]
    rw [hrc]
    push_cast
    omega

theorem wait_call_nonpositive_threshold_witness :
    waitCall 0 0 [[72, 73]] = none ∧
    waitCall 0 0 [[72], [82, 73, 78, 71]] = some [] :=
  ⟨(wait_call_nonpositive_threshold 0 (by decide)).1 [[72, 73]] (by decide),
   (wait_call_nonpositive_threshold 0 (by decide)).2 [[72]] [82, 73, 78, 71]
     [] (by decide) (by decide) (by decide)⟩

/-- C6: construction aborts with the single distinguished initialization
failure, returning no handle, when the serial port cannot be opened, and
likewise when any one of the six startup commands fails to produce its
expected response, in either way a command can fail: its first substantive
line is not its echo, or its echo matches but the following result line
deviates from OK CR LF; when the transport scripts the exact echo and OK
result for all six commands in order, construction succeeds. -/
theorem init_requires_all_six :
    (∀ rest, initModem true (scriptFor initCmds ++ rest) = Except.ok ()) ∧
    (∀ input, initModem false input
        = Except.error InitError.couldNotInitialize) ∧
    (∀ pre c post bad rest, initCmds = pre ++ c :: post →
        bad ≠ crlf → bad ≠ okLine → bad ≠ echoLine c →
        initModem true (scriptFor pre ++ bad :: rest)
          = Except.error InitError.couldNotInitialize) ∧
    (∀ pre c post badRes rest, initCmds = pre ++ c :: post →
        badRes ≠ resultLine okResp →
        initModem true (scriptFor pre ++ echoLine c :: badRes :: rest)
          = Except.error InitError.couldNotInitialize) := by
  refine ⟨?_, ?_, ?_, ?_⟩
  · intro rest
    unfold initModem
    rw [if_neg (by simp), runCmds_script initCmds rest]
    rfl
  · intro input
    rfl
  · intro pre c post bad rest hsplit h1 h2 h3
    unfold initModem
    rw [if_neg (by simp), hsplit, runCmds_bad pre c post bad rest h1 h2 h3]
    rfl
  · intro pre c post badRes rest hsplit h
    unfold initModem
    rw [if_neg (by simp), hsplit,
      runCmds_badResult pre c post badRes rest h]
    rfl

theorem init_requires_all_six_witness :
    initModem true (scriptFor initCmds) = Except.ok () ∧
    initModem false [] = Except.error InitError.couldNotInitialize ∧
    initModem true [[65]] = Except.error InitError.couldNotInitialize ∧
    initModem true [echoLine [65, 84, 69, 49], [69, 13, 10]]
      = Except.error InitError.couldNotInitialize :=
  ⟨init_requires_all_six.1 [],
   init_requires_all_six.2.1 [],
   init_requires_all_six.2.2.1 [] [65, 84, 69, 49]
     [[65, 84], [65, 84, 38, 70, 48], [65, 84, 86, 49], [65, 84, 69, 49],
      [65, 84, 43, 86, 67, 73, 68, 61, 49]] [65] []
     (by decide) (by decide) (by decide) (by decide),
   init_requires_all_six.2.2.2 [] [65, 84, 69, 49]
     [[65, 84], [65, 84, 38, 70, 48], [65, 84, 86, 49], [65, 84, 69, 49],
      [65, 84, 43, 86, 67, 73, 68, 61, 49]] [69, 13, 10] []
     (by decide) (by decide)⟩

/-- C2 (counterexample): on a concrete three-chunk inbound script whose
third chunk carries 0x10 0x03, record_call collects exactly the first two
chunks; the marker-bearing chunk is absent from the recording, refuting
the statement that the marker-bearing chunk is collected in full. -/
theorem record_call_drops_marker_chunk :
    record_call 0 0 none 100 [([1], 0), ([2], 1), ([5, 0x10, 0x03, 6], 2)]
      = some ⟨[[1], [2]], 1, 0, []⟩ ∧
    [5, 0x10, 0x03, 6] ∉ [[1], [2]] := by
  constructor
  · decide
  · decide

/-- C2 (amended): record_call stops its read loop at the first chunk
containing a termination marker, never reading past that chunk, and
likewise stops at a chunk whose iteration observes elapsed time at or past
the timeout even with no marker; hang_up is issued exactly once; the chunk
read during the exit iteration is however not collected: the recording
holds exactly the chunks read strictly before it. -/
theorem record_call_stops_at_marker (dd ct : Nat) (dateArg : Option Nat)
    (timeout : ℚ) (pre : List (Bytes × ℚ)) (c : Bytes) (t : ℚ)
    (rest : List (Bytes × ℚ))
    (hpre : ∀ p ∈ pre, detect_end p.1 = false ∧ p.2 < timeout) :
    (detect_end c = true →
      record_call dd ct dateArg timeout (pre ++ (c, t) :: rest)
        = some ⟨pre.map Prod.fst, 1, dateArg.getD dd, rest⟩) ∧
    (timeout ≤ t →
      record_call dd ct dateArg timeout (pre ++ (c, t) :: rest)
        = some ⟨pre.map Prod.fst, 1, dateArg.getD dd, rest⟩) := by
  constructor
  · intro hc
    unfold record_call
    rw [recordLoop_exit timeout pre c t rest hpre (Or.inl hc)]
    rfl
  · intro ht
    unfold record_call
    rw [recordLoop_exit timeout pre c t rest hpre (Or.inr ht)]
    rfl

theorem record_call_stops_at_marker_witness :
    record_call 0 0 none 100 [([1], 0), ([0x10, 0x03], 1)]
      = some ⟨[[1]], 1, 0, []⟩ :=
  (record_call_stops_at_marker 0 0 none 100 [([1], 0)] [0x10, 0x03] 1 []
    (by decide)).1 (by decide)

/-- C8: whenever record_call returns, its frames are exactly the chunks of
a prefix of the input on every element of which the detector returned
false and the observed elapsed time was below the timeout; the chunk of
the iteration in which an exit condition fired is excluded from the
frames, the input past it is untouched, and hang_up runs exactly once. -/
theorem record_frames_invariant (dd ct : Nat) (dateArg : Option Nat)
    (timeout : ℚ) (input : List (Bytes × ℚ)) (res : RecordResult)
    (h : record_call dd ct dateArg timeout input = some res) :
    res.hangUps = 1 ∧
    ∃ pre ex rest, input = pre ++ ex :: rest ∧
      res.frames = pre.map Prod.fst ∧
      (∀ p ∈ pre, detect_end p.1 = false ∧ p.2 < timeout) ∧
      (detect_end ex.1 = true ∨ timeout ≤ ex.2) ∧
      res.leftover = rest := by
  unfold record_call at h
  rcases hrec : recordLoop timeout input with _ | ⟨fs, left⟩
  · rw [hrec] at h
    exact absurd h (by simp)
  · rw [hrec] at h
    rw [Option.map_some'] at h
    injection h with hh
    obtain ⟨pre, ex, rest, hsplit, hfs, hpre, hexit, hleft⟩ :=
      recordLoop_some_inv timeout input fs left hrec
    subst hh
    exact ⟨rfl, pre, ex, rest, hsplit, by simpa using hfs, hpre, hexit,
      by simpa using hleft⟩

theorem record_frames_invariant_witness :
    (⟨[], 1, 0, []⟩ : RecordResult).hangUps = 1 ∧
    ∃ pre ex rest,
      ([([0x10, 0x03], 0)] : List (Bytes × ℚ)) = pre ++ ex :: rest ∧
      (⟨[], 1, 0, []⟩ : RecordResult).frames = pre.map Prod.fst ∧
      (∀ p ∈ pre, detect_end p.1 = false ∧ p.2 < (5 : ℚ)) ∧
      (detect_end ex.1 = true ∨ (5 : ℚ) ≤ ex.2) ∧
      (⟨[], 1, 0, []⟩ : RecordResult).leftover = rest :=
  record_frames_invariant 0 0 none 5 [([0x10, 0x03], 0)] ⟨[], 1, 0, []⟩
    (by decide)

/-- C3 (code evaluated at the failing input): a source holding a single
chunk, an explicit timeout of 2 seconds and iteration times 0, 1, 2: the
write loop of play_audio_obj keeps running after the source is exhausted,
writing the empty chunk twice more, and stops only when the elapsed time
reaches the timeout, because its guard compares a bytes value with a str
value and therefore holds even for the empty read; in particular the
writes differ from the single-chunk list that stopping at exhaustion
would produce. -/
theorem play_audio_ignores_exhaustion :
    playAudioObj ⟨1024, 8000, [[7]]⟩ 2 [0, 1, 2] = some [[7], [], []] ∧
    playAudioObj ⟨1024, 8000, [[7]]⟩ 2 [0, 1, 2] ≠ some [[7]] := by
  constructor
  · decide
  · decide

/-- C10: the default of the date parameter of record_call is the value
captured once when the class body was defined; two calls omitting the
date argument, made at different wall-clock times, behave identically and
name their output from the fixed definition-time timestamp, which in
general differs from the time the recording started. -/
theorem record_call_fixed_default_date :
    (∀ (dd t1 t2 : Nat) (timeout : ℚ) (input : List (Bytes × ℚ)),
      record_call dd t1 none timeout input
        = record_call dd t2 none timeout input) ∧
    (∀ (dd t : Nat) (timeout : ℚ) (input : List (Bytes × ℚ))
        (res : RecordResult),
      record_call dd t none timeout input = some res → res.dateUsed = dd) ∧
    (∃ (dd t : Nat) (timeout : ℚ) (input : List (Bytes × ℚ))
        (res : RecordResult),
      record_call dd t none timeout input = some res ∧ res.dateUsed ≠ t) := by
  refine ⟨fun dd t1 t2 timeout input => rfl, ?_, ?_⟩
  · intro dd t timeout input res h
    unfold record_call at h
    rcases hrec : recordLoop timeout input with _ | ⟨fs, left⟩
    · rw [hrec] at h
      exact absurd h (by simp)
    · rw [hrec] at h
      rw [Option.map_some'] at h
      injection h with hh
      subst hh
      rfl
  · exact ⟨0, 1, 5, [([0x10, 0x03], 0)], ⟨[], 1, 0, []⟩,
      by decide, by decide⟩

theorem record_call_fixed_default_date_witness :
    (⟨[], 1, 0, []⟩ : RecordResult).dateUsed = 0 :=
  record_call_fixed_default_date.2.1 0 1 5 [([0x10, 0x03], 0)]
    ⟨[], 1, 0, []⟩ (by decide)

end CX93001
